import Mathlib

/-!
# dnsprobe: resolution and wildcard detection

A shallow embedding of `main.go` of `vodafon/dnsprobe`.

* Go strings are lists of characters (`Str`).
* The upstream DNS server is a function `Resolver`: the reply to the `k`-th
  exchange of the run for a given question name.  Every exchange is recorded,
  in order, in `Sys.sent`.
* The exchanges made by `parentAnswers`, the probes, are recorded a second
  time in `Sys.probed`, which tells them from the lookups of the candidates.
* `fmt.Println` appends to `Sys.stdout`, `log.Printf` appends to `Sys.logged`.
* The map `wildcards` is an association list read with `mapGet`; an insertion
  puts the new entry in front.
* The mutex is not modelled: the calls of one run are taken one after another.
-/

namespace Dnsprobe

/-! ## The program -/

/-- A Go string. -/
abbrev Str := List Char

/-- An answer record of a DNS reply, as `answers` tells them apart: an address
record with the text of its address (`t.A.String()`), a canonical-name record
with its target, or a record of any other type. -/
inductive RR where
  | A (addr : Str)
  | CNAME (target : Str)
  | other
  deriving DecidableEq, Repr

/-- The error of a failed exchange. -/
abbrev QueryError := Str

/-- The upstream server: `net k name` is the outcome of `c.Exchange` for the
question `name` when `k` exchanges have been made before it. -/
abbrev Resolver := Nat → Str → Except QueryError (List RR)

/-- The command-line flags read by the core. -/
structure Flags where
  flagSkipCname : Bool
  flagCheckWildcard : Bool
  flagVerbose : Bool
  deriving DecidableEq, Repr

/-- The `DNSProbe` struct (without its mutex). -/
structure DNSProbe where
  server : Str
  random : Str
  wildcards : List (Str × List Str)
  showUnresolved : Bool
  deriving DecidableEq, Repr

/-- The probe object together with what the run has done to the outside:
the question names sent upstream, those of them that `parentAnswers` sent,
the lines printed, the lines logged. -/
structure Sys where
  obj : DNSProbe
  sent : List Str
  probed : List Str
  stdout : List Str
  logged : List Str
  deriving DecidableEq, Repr

/-- Reading `m[k]` with the comma-ok form. -/
def mapGet : List (Str × List Str) → Str → Option (List Str)
  | [], _ => none
  | (k', v) :: rest, k => if k' = k then some v else mapGet rest k

/-- The assignment `m[k] = v`. -/
def mapSet (m : List (Str × List Str)) (k : Str) (v : List Str) : List (Str × List Str) :=
  (k, v) :: m

/-- The call `strings.HasPrefix s p`. -/
def HasPrefix : Str → Str → Bool
  | _, [] => true
  | [], _ :: _ => false
  | c :: cs, d :: ds => if c = d then HasPrefix cs ds else false

/-- The call `strings.TrimPrefix s p`. -/
def TrimPrefix (s p : Str) : Str :=
  if HasPrefix s p then s.drop p.length else s

/-- The call `strings.ToLower s`, over the rune mapping `unicode.ToLower`. -/
def ToLower (lower : Char → Char) (s : Str) : Str :=
  s.map lower

/-- The call `strings.Split s string(sep)` for a one-character separator. -/
def Split : Str → Char → List Str
  | [], _ => [[]]
  | c :: cs, sep =>
    if c = sep then [] :: Split cs sep
    else
      match Split cs sep with
      | [] => [[c]]
      | p :: ps => (c :: p) :: ps

/-- The call `strings.Join elems sep`. -/
def Join : List Str → Str → Str
  | [], _ => []
  | [e], _ => e
  | e :: f :: rest, sep => e ++ sep ++ Join (f :: rest) sep

/-- The text `log.Printf("%s: %s", url, anss)` writes (without the time stamp
the logger puts in front). -/
def logLine (url : Str) (anss : List Str) : Str :=
  url ++ ": ".toList ++ ("[".toList ++ Join anss " ".toList ++ "]".toList)

/-- The call `fmt.Println(url)`. -/
def Println (url : Str) (s : Sys) : Sys :=
  { s with stdout := s.stdout ++ [url] }

/-- The call `log.Printf("%s: %s", url, anss)`. -/
def Printf (url : Str) (anss : List Str) (s : Sys) : Sys :=
  { s with logged := s.logged ++ [logLine url anss] }

/-- The loop of `answers` over `r.Answer`, `res` being what was collected so far. -/
def collect (skipCname : Bool) : List RR → List Str → List Str
  | [], res => res
  | RR.A addr :: rest, res => collect skipCname rest (res ++ [addr])
  | RR.CNAME target :: rest, res =>
    if skipCname then [] else collect skipCname rest (res ++ [target])
  | RR.other :: rest, res => collect skipCname rest res

/-- The method `answers`: one exchange for `url + "."`. -/
def answers (fl : Flags) (net : Resolver) (url : Str) (s : Sys) :
    Except QueryError (List Str) × Sys :=
  let q := url ++ ".".toList
  let s1 := { s with sent := s.sent ++ [q] }
  match net s.sent.length q with
  | Except.error err => (Except.error err, s1)
  | Except.ok ans => (Except.ok (collect fl.flagSkipCname ans []), s1)

/-- The record that `parentAnswers` made the exchange for `parent + "."`. -/
def noteProbe (parent : Str) (s : Sys) : Sys :=
  { s with probed := s.probed ++ [parent ++ ".".toList] }

/-- The method `parentAnswers`; its exchange is also noted in `probed`. -/
def parentAnswers (fl : Flags) (net : Resolver) (parent : Str) (s : Sys) : List Str × Sys :=
  match answers fl net parent s with
  | (Except.error _, s1) => ([], noteProbe parent s1)
  | (Except.ok anss, s1) => (anss, noteProbe parent s1)

/-- The function `isInclude`. -/
def isInclude (el : Str) : List Str → Bool
  | [] => false
  | li :: rest => if el = li then true else isInclude el rest

/-- The function `isIncludeSlices`. -/
def isIncludeSlices : List Str → List Str → Bool
  | [], _ => true
  | el :: rest, s2 => if !isInclude el s2 then false else isIncludeSlices rest s2

/-- The zone of a candidate, `strings.Join(parts[1:], ".")`: the candidate
without its leftmost label. -/
def zoneOf (url : Str) : Str :=
  Join ((Split url '.').drop 1) ".".toList

/-- The name probed for a zone, `obj.random + "." + zone`; it is also the key
under which the signature of the zone is cached. -/
def probeName (random zone : Str) : Str :=
  random ++ ".".toList ++ zone

/-- The variable `parent` of `checkIsValidWildcard`. -/
def parentOf (random url : Str) : Str :=
  probeName random (zoneOf url)

/-- The locked section of `checkIsValidWildcard`: read the cache, and on a
miss probe the zone and store the result. -/
def lookupOrProbe (fl : Flags) (net : Resolver) (parent : Str) (s : Sys) : List Str × Sys :=
  match mapGet s.obj.wildcards parent with
  | some answers => (answers, s)
  | none =>
    match parentAnswers fl net parent s with
    | (answers, s1) =>
      (answers, { s1 with obj := { s1.obj with wildcards := mapSet s1.obj.wildcards parent answers } })

/-- The method `checkIsValidWildcard`. -/
def checkIsValidWildcard (fl : Flags) (net : Resolver) (url : Str) (s : Sys) : Bool × Sys :=
  match answers fl net url s with
  | (Except.error _, s1) => (false, s1)
  | (Except.ok anss, s1) =>
    if anss.length = 0 then (false, s1)
    else if (Split url '.').length < 3 then (true, s1)
    else
      match lookupOrProbe fl net (parentOf s1.obj.random url) s1 with
      | (answers, s2) =>
        let valid := !isIncludeSlices anss answers
        if valid && fl.flagVerbose then (valid, Printf url anss s2) else (valid, s2)

/-- The method `isValid`. -/
def isValid (fl : Flags) (net : Resolver) (url : Str) (s : Sys) : Bool × Sys :=
  if fl.flagCheckWildcard then checkIsValidWildcard fl net url s
  else
    match answers fl net url s with
    | (Except.error _, s1) => (false, s1)
    | (Except.ok anss, s1) =>
      if anss.length = 0 then (false, s1)
      else if fl.flagVerbose then (true, Printf url anss s1)
      else (true, s1)

/-- The scheme prefixes `Process` strips, in the order of its loop. -/
def schemePrefixes : List Str :=
  ["http://".toList, "https://".toList]

/-- The first lines of `Process`: the domain handed to `isValid`. -/
def normalize (lower : Char → Char) (url : Str) : Str :=
  schemePrefixes.foldl TrimPrefix (ToLower lower url)

/-- The method `Process`. -/
def Process (fl : Flags) (lower : Char → Char) (net : Resolver) (url : Str) (s : Sys) : Sys :=
  match isValid fl net (normalize lower url) s with
  | (isResolved, s1) =>
    if s1.obj.showUnresolved && !isResolved then Println url s1
    else if isResolved then Println url s1
    else s1

/-- The object `main` builds, before any line is read. -/
def start (server random : Str) (showUnresolved : Bool) : Sys :=
  { obj := { server := server, random := random, wildcards := [], showUnresolved := showUnresolved },
    sent := [], probed := [], stdout := [], logged := [] }

/-- A run with one worker: the input lines are processed one after another. -/
def processAll (fl : Flags) (lower : Char → Char) (net : Resolver) (urls : List Str) (s : Sys) : Sys :=
  urls.foldl (fun acc url => Process fl lower net url acc) s

/-! ## Notions used in the statements -/

/-- The number of exchanges in a list of question names, `sent` or `probed`,
whose question is `name + "."`. -/
def queriesFor (name : Str) (sent : List Str) : Nat :=
  sent.count (name ++ ".".toList)

/-- The state after the exchange for the candidate itself. -/
def afterQuery (url : Str) (s : Sys) : Sys :=
  { s with sent := s.sent ++ [url ++ ".".toList] }

/-- What one call can do to the exchanges and to the cache: either only the
candidate was queried, no probe was made and the cache is as before, or the
zone was not cached, the candidate was queried, its zone was probed, and one
entry was added for the zone. -/
def StepShape (url : Str) (s r : Sys) : Prop :=
  (r.sent = s.sent ++ [url ++ ".".toList] ∧ r.probed = s.probed ∧
    r.obj.wildcards = s.obj.wildcards) ∨
  (∃ sig, mapGet s.obj.wildcards (parentOf s.obj.random url) = none ∧
    r.sent = s.sent ++ [url ++ ".".toList, parentOf s.obj.random url ++ ".".toList] ∧
    r.probed = s.probed ++ [parentOf s.obj.random url ++ ".".toList] ∧
    r.obj.wildcards = mapSet s.obj.wildcards (parentOf s.obj.random url) sig)

/-! ## Concrete resolvers and states -/

/-- The resolver of the end-to-end scenario: `a.example.com` has the address
1.1.1.1, `b.example.com` resolves to nothing, any other exchange times out. -/
def scenarioNet : Resolver := fun _ q =>
  if q = "a.example.com.".toList then Except.ok [RR.A "1.1.1.1".toList]
  else if q = "b.example.com.".toList then Except.ok []
  else Except.error "i/o timeout".toList

/-- A crafted upstream that answers every query with the same address. -/
def mirrorNet : Resolver := fun _ _ => Except.ok [RR.A "6.6.6.6".toList]

/-- An upstream whose reply holds an address record and a canonical-name record. -/
def cnameNet : Resolver := fun _ _ =>
  Except.ok [RR.A "1.1.1.1".toList, RR.CNAME "edge.example.net.".toList]

/-- An upstream that answers the first exchange and fails every later one. -/
def firstOnlyNet : Resolver := fun k _ =>
  if k = 0 then Except.ok [RR.A "1.1.1.1".toList] else Except.error "i/o timeout".toList

/-- An upstream that answers every query with two addresses. -/
def twoAddrNet : Resolver := fun _ _ =>
  Except.ok [RR.A "1.2.3.4".toList, RR.A "5.6.7.8".toList]

/-- An upstream that answers every query with one address, 1.2.3.4. -/
def oneAddrNet : Resolver := fun _ _ => Except.ok [RR.A "1.2.3.4".toList]

/-- A ten-character token `randString` can produce. -/
def token : Str := "k3x9q0zt7m".toList

/-- The state at the start of a run with that token, default server. -/
def fresh (showUnresolved : Bool) : Sys :=
  start "8.8.8.8:53".toList token showUnresolved

/-- A state in which the zone `example.com` is cached with signature [1.2.3.4]. -/
def cachedSys : Sys :=
  { obj := { server := "8.8.8.8:53".toList, random := token,
             wildcards := [(probeName token "example.com".toList, ["1.2.3.4".toList])],
             showUnresolved := false },
    sent := [], probed := [], stdout := [], logged := [] }

/-! ## Lemmas -/

theorem collect_cname_skip (ans : List RR) (res : List Str)
    (h : ∃ target, RR.CNAME target ∈ ans) : collect true ans res = [] := by
  induction ans generalizing res with
  | nil => obtain ⟨t, ht⟩ := h; simp at ht
  | cons r rest ih =>
    obtain ⟨t, ht⟩ := h
    cases r with
    | A addr =>
      have : RR.CNAME t ∈ rest := by simpa using ht
      simpa [collect] using ih _ ⟨t, this⟩
    | CNAME target => simp [collect]
    | other =>
      have : RR.CNAME t ∈ rest := by simpa using ht
      simpa [collect] using ih _ ⟨t, this⟩

theorem answers_snd (fl : Flags) (net : Resolver) (url : Str) (s : Sys) :
    (answers fl net url s).2 = { s with sent := s.sent ++ [url ++ ".".toList] } := by
  simp only [answers]
  split <;> rfl

theorem answers_fst (fl : Flags) (net : Resolver) (url : Str) (s : Sys) :
    (answers fl net url s).1 =
      match net s.sent.length (url ++ ".".toList) with
      | Except.error err => Except.error err
      | Except.ok ans => Except.ok (collect fl.flagSkipCname ans []) := by
  simp only [answers]
  split <;> rfl

theorem answers_eq (fl : Flags) (net : Resolver) (url : Str) (s : Sys) :
    answers fl net url s =
      ((answers fl net url s).1, { s with sent := s.sent ++ [url ++ ".".toList] }) := by
  rw [← answers_snd]

theorem parentAnswers_snd (fl : Flags) (net : Resolver) (parent : Str) (s : Sys) :
    (parentAnswers fl net parent s).2 =
      { s with sent := s.sent ++ [parent ++ ".".toList],
               probed := s.probed ++ [parent ++ ".".toList] } := by
  unfold parentAnswers
  rw [answers_eq]
  cases (answers fl net parent s).1 <;> rfl

theorem parentAnswers_fst (fl : Flags) (net : Resolver) (parent : Str) (s : Sys) :
    (parentAnswers fl net parent s).1 =
      match (answers fl net parent s).1 with
      | Except.error _ => []
      | Except.ok anss => anss := by
  unfold parentAnswers
  rw [answers_eq]
  cases (answers fl net parent s).1 <;> rfl

theorem lookupOrProbe_hit (fl : Flags) (net : Resolver) (parent : Str) (s : Sys)
    (sig : List Str) (h : mapGet s.obj.wildcards parent = some sig) :
    lookupOrProbe fl net parent s = (sig, s) := by
  simp only [lookupOrProbe, h]

theorem lookupOrProbe_miss (fl : Flags) (net : Resolver) (parent : Str) (s : Sys)
    (h : mapGet s.obj.wildcards parent = none) :
    lookupOrProbe fl net parent s =
      ((parentAnswers fl net parent s).1,
        { obj := { s.obj with
                    wildcards := mapSet s.obj.wildcards parent (parentAnswers fl net parent s).1 },
          sent := s.sent ++ [parent ++ ".".toList],
          probed := s.probed ++ [parent ++ ".".toList],
          stdout := s.stdout, logged := s.logged }) := by
  have h2 := parentAnswers_snd fl net parent s
  simp only [lookupOrProbe, h]
  generalize parentAnswers fl net parent s = r at h2 ⊢
  obtain ⟨a, s1⟩ := r
  simp only at h2
  subst h2
  rfl

theorem mapGet_mapSet_self (m : List (Str × List Str)) (k : Str) (v : List Str) :
    mapGet (mapSet m k v) k = some v := by
  simp [mapSet, mapGet]

theorem mapGet_mapSet_ne (m : List (Str × List Str)) (k k' : Str) (v : List Str)
    (h : k ≠ k') : mapGet (mapSet m k v) k' = mapGet m k' := by
  simp [mapSet, mapGet, h]

theorem checkIsValidWildcard_error (fl : Flags) (net : Resolver) (url : Str) (s : Sys)
    (err : QueryError) (h : (answers fl net url s).1 = Except.error err) :
    checkIsValidWildcard fl net url s = (false, afterQuery url s) := by
  unfold checkIsValidWildcard
  rw [answers_eq, h]
  rfl

theorem checkIsValidWildcard_empty (fl : Flags) (net : Resolver) (url : Str) (s : Sys)
    (h : (answers fl net url s).1 = Except.ok []) :
    checkIsValidWildcard fl net url s = (false, afterQuery url s) := by
  unfold checkIsValidWildcard
  rw [answers_eq, h]
  rfl

theorem checkIsValidWildcard_short (fl : Flags) (net : Resolver) (url : Str) (s : Sys)
    (anss : List Str) (h : (answers fl net url s).1 = Except.ok anss) (hne : anss ≠ [])
    (hshort : (Split url '.').length < 3) :
    checkIsValidWildcard fl net url s = (true, afterQuery url s) := by
  unfold checkIsValidWildcard
  rw [answers_eq, h]
  have hlen : ¬ anss.length = 0 := by simpa using hne
  simp only [hlen, hshort, if_true, if_false]
  rfl

theorem checkIsValidWildcard_long (fl : Flags) (net : Resolver) (url : Str) (s : Sys)
    (anss : List Str) (h : (answers fl net url s).1 = Except.ok anss) (hne : anss ≠ [])
    (hlong : 3 ≤ (Split url '.').length) :
    checkIsValidWildcard fl net url s =
      (!isIncludeSlices anss (lookupOrProbe fl net (parentOf s.obj.random url) (afterQuery url s)).1,
        if (!isIncludeSlices anss
              (lookupOrProbe fl net (parentOf s.obj.random url) (afterQuery url s)).1)
            && fl.flagVerbose
        then Printf url anss (lookupOrProbe fl net (parentOf s.obj.random url) (afterQuery url s)).2
        else (lookupOrProbe fl net (parentOf s.obj.random url) (afterQuery url s)).2) := by
  unfold checkIsValidWildcard
  rw [answers_eq, h]
  have hlen : ¬ anss.length = 0 := by simpa using hne
  have hnot : ¬ (Split url '.').length < 3 := by omega
  simp only [hlen, hnot, if_false, afterQuery]
  generalize lookupOrProbe fl net (parentOf s.obj.random url)
    { obj := s.obj, sent := s.sent ++ [url ++ ".".toList], probed := s.probed,
      stdout := s.stdout, logged := s.logged } = r
  obtain ⟨a, s2⟩ := r
  simp only
  split <;> rfl

theorem isInclude_iff (el : Str) (list : List Str) : isInclude el list = true ↔ el ∈ list := by
  induction list with
  | nil => simp [isInclude]
  | cons li rest ih =>
    by_cases h : el = li
    · simp [isInclude, h]
    · simp [isInclude, h, ih]

theorem isIncludeSlices_iff (s1 s2 : List Str) :
    isIncludeSlices s1 s2 = true ↔ ∀ el ∈ s1, el ∈ s2 := by
  induction s1 with
  | nil => simp [isIncludeSlices]
  | cons el rest ih =>
    by_cases h : el ∈ s2
    · have h1 : isInclude el s2 = true := (isInclude_iff el s2).2 h
      simp [isIncludeSlices, h1, ih, h]
    · have h1 : isInclude el s2 = false := by
        cases hb : isInclude el s2 with
        | false => rfl
        | true => exact absurd ((isInclude_iff el s2).1 hb) h
      simp [isIncludeSlices, h1, h]

theorem lookupOrProbe_frame (fl : Flags) (net : Resolver) (parent : Str) (s : Sys) :
    (lookupOrProbe fl net parent s).2.stdout = s.stdout ∧
    (lookupOrProbe fl net parent s).2.logged = s.logged ∧
    (lookupOrProbe fl net parent s).2.obj.random = s.obj.random ∧
    (lookupOrProbe fl net parent s).2.obj.showUnresolved = s.obj.showUnresolved := by
  cases h : mapGet s.obj.wildcards parent with
  | some sig => rw [lookupOrProbe_hit fl net parent s sig h]; simp
  | none => rw [lookupOrProbe_miss fl net parent s h]; simp

theorem answers_cases (fl : Flags) (net : Resolver) (url : Str) (s : Sys) :
    (∃ err, (answers fl net url s).1 = Except.error err) ∨
    (answers fl net url s).1 = Except.ok [] ∨
    (∃ anss, (answers fl net url s).1 = Except.ok anss ∧ anss ≠ []) := by
  cases h : (answers fl net url s).1 with
  | error err => exact Or.inl ⟨err, rfl⟩
  | ok anss =>
    cases anss with
    | nil => exact Or.inr (Or.inl rfl)
    | cons a rest => exact Or.inr (Or.inr ⟨a :: rest, rfl, by simp⟩)

theorem checkIsValidWildcard_frame (fl : Flags) (net : Resolver) (url : Str) (s : Sys) :
    (checkIsValidWildcard fl net url s).2.stdout = s.stdout ∧
    (checkIsValidWildcard fl net url s).2.obj.random = s.obj.random ∧
    (checkIsValidWildcard fl net url s).2.obj.showUnresolved = s.obj.showUnresolved := by
  rcases answers_cases fl net url s with ⟨err, h⟩ | h | ⟨anss, h, hne⟩
  · rw [checkIsValidWildcard_error fl net url s err h]; simp [afterQuery]
  · rw [checkIsValidWildcard_empty fl net url s h]; simp [afterQuery]
  · by_cases hshort : (Split url '.').length < 3
    · rw [checkIsValidWildcard_short fl net url s anss h hne hshort]; simp [afterQuery]
    · rw [checkIsValidWildcard_long fl net url s anss h hne (by omega)]
      have hf := lookupOrProbe_frame fl net (parentOf s.obj.random url) (afterQuery url s)
      obtain ⟨h1, _, h3, h4⟩ := hf
      simp only
      split
      · exact ⟨h1, h3, h4⟩
      · exact ⟨h1, h3, h4⟩

theorem isValid_frame (fl : Flags) (net : Resolver) (url : Str) (s : Sys) :
    (isValid fl net url s).2.stdout = s.stdout ∧
    (isValid fl net url s).2.obj.random = s.obj.random ∧
    (isValid fl net url s).2.obj.showUnresolved = s.obj.showUnresolved := by
  unfold isValid
  by_cases hcw : fl.flagCheckWildcard = true
  · simp only [hcw, if_true]
    exact checkIsValidWildcard_frame fl net url s
  · simp only [hcw]
    rw [answers_eq]
    cases (answers fl net url s).1 with
    | error err => simp
    | ok anss =>
      by_cases hlen : anss.length = 0
      · simp [hlen]
      · by_cases hv : fl.flagVerbose = true
        · simp [hlen, hv, Printf]
        · simp [hlen, hv]

theorem HasPrefix_append (s p q : Str) (hp : HasPrefix s p = true)
    (hq : HasPrefix (s.drop p.length) q = true) : HasPrefix s (p ++ q) = true := by
  induction p generalizing s with
  | nil => simpa using hq
  | cons d ds ih =>
    cases s with
    | nil => simp [HasPrefix] at hp
    | cons c cs =>
      by_cases hcd : c = d
      · subst hcd
        simp only [HasPrefix, if_true] at hp
        simp only [List.length_cons, List.drop_succ_cons] at hq
        simpa [HasPrefix] using ih cs hp hq
      · simp [HasPrefix, hcd] at hp

theorem normalize_eq (lower : Char → Char) (url : Str) :
    normalize lower url =
      TrimPrefix (TrimPrefix (ToLower lower url) "http://".toList) "https://".toList := rfl

theorem HasPrefix_false_of_bool (s p : Str) (h : ¬ HasPrefix s p = true) :
    HasPrefix s p = false := by
  simpa using h

theorem checkIsValidWildcard_shape (fl : Flags) (net : Resolver) (url : Str) (s : Sys) :
    StepShape url s (checkIsValidWildcard fl net url s).2 := by
  rcases answers_cases fl net url s with ⟨err, h⟩ | h | ⟨anss, h, hne⟩
  · rw [checkIsValidWildcard_error fl net url s err h]; exact Or.inl ⟨rfl, rfl, rfl⟩
  · rw [checkIsValidWildcard_empty fl net url s h]; exact Or.inl ⟨rfl, rfl, rfl⟩
  · by_cases hshort : (Split url '.').length < 3
    · rw [checkIsValidWildcard_short fl net url s anss h hne hshort]
      exact Or.inl ⟨rfl, rfl, rfl⟩
    · rw [checkIsValidWildcard_long fl net url s anss h hne (by omega)]
      cases hc : mapGet s.obj.wildcards (parentOf s.obj.random url) with
      | some sig =>
        have hc1 : mapGet (afterQuery url s).obj.wildcards (parentOf s.obj.random url)
            = some sig := hc
        rw [lookupOrProbe_hit fl net _ _ sig hc1]
        refine Or.inl ?_
        simp only
        split
        · exact ⟨rfl, rfl, rfl⟩
        · exact ⟨rfl, rfl, rfl⟩
      | none =>
        have hc1 : mapGet (afterQuery url s).obj.wildcards (parentOf s.obj.random url)
            = none := hc
        rw [lookupOrProbe_miss fl net _ _ hc1]
        refine Or.inr ⟨(parentAnswers fl net (parentOf s.obj.random url) (afterQuery url s)).1,
          hc, ?_⟩
        simp only
        split
        · simp [Printf, afterQuery]
        · simp [afterQuery]

theorem isValid_shape (fl : Flags) (net : Resolver) (url : Str) (s : Sys) :
    StepShape url s (isValid fl net url s).2 := by
  unfold isValid
  by_cases hcw : fl.flagCheckWildcard = true
  · simp only [hcw, if_true]
    exact checkIsValidWildcard_shape fl net url s
  · simp only [hcw]
    rw [answers_eq]
    refine Or.inl ?_
    cases (answers fl net url s).1 with
    | error err => exact ⟨rfl, rfl, rfl⟩
    | ok anss =>
      by_cases hlen : anss.length = 0
      · simp [hlen]
      · by_cases hv : fl.flagVerbose = true
        · simp [hlen, hv, Printf]
        · simp [hlen, hv]

theorem Process_eq (fl : Flags) (lower : Char → Char) (net : Resolver) (url : Str) (s : Sys) :
    Process fl lower net url s = (isValid fl net (normalize lower url) s).2 ∨
    Process fl lower net url s = Println url (isValid fl net (normalize lower url) s).2 := by
  unfold Process
  generalize isValid fl net (normalize lower url) s = r
  obtain ⟨b, s1⟩ := r
  simp only
  split
  · exact Or.inr rfl
  · split
    · exact Or.inr rfl
    · exact Or.inl rfl

theorem Process_shape (fl : Flags) (lower : Char → Char) (net : Resolver) (url : Str) (s : Sys) :
    StepShape (normalize lower url) s (Process fl lower net url s) := by
  have h := isValid_shape fl net (normalize lower url) s
  rcases Process_eq fl lower net url s with he | he
  · rw [he]; exact h
  · rw [he]; exact h

theorem Process_random (fl : Flags) (lower : Char → Char) (net : Resolver) (url : Str) (s : Sys) :
    (Process fl lower net url s).obj.random = s.obj.random := by
  have h := (isValid_frame fl net (normalize lower url) s).2.1
  rcases Process_eq fl lower net url s with he | he
  · rw [he]; exact h
  · rw [he]; exact h

theorem queriesFor_append_other (name c : Str) (sent : List Str) (h : c ≠ name) :
    queriesFor name (sent ++ [c ++ ".".toList]) = queriesFor name sent := by
  simp [queriesFor, List.count_append, List.count_cons, h]

theorem queriesFor_append_self (name : Str) (sent : List Str) :
    queriesFor name (sent ++ [name ++ ".".toList]) = queriesFor name sent + 1 := by
  simp [queriesFor, List.count_append]

theorem Process_cache_keeps (fl : Flags) (lower : Char → Char) (net : Resolver) (url : Str)
    (s : Sys) (key : Str) (sig : List Str) (h : mapGet s.obj.wildcards key = some sig) :
    mapGet (Process fl lower net url s).obj.wildcards key = some sig := by
  rcases Process_shape fl lower net url s with ⟨_, _, hw⟩ | ⟨sig', hmiss, _, _, hw⟩
  · rw [hw]; exact h
  · rw [hw]
    have hk : parentOf s.obj.random (normalize lower url) ≠ key := by
      intro he
      rw [he, h] at hmiss
      exact Option.noConfusion hmiss
    rw [mapGet_mapSet_ne _ _ _ _ hk]
    exact h

theorem Process_step_cached (fl : Flags) (lower : Char → Char) (net : Resolver) (url : Str)
    (s : Sys) (name : Str) (sig : List Str)
    (h : mapGet s.obj.wildcards name = some sig) :
    queriesFor name (Process fl lower net url s).probed = queriesFor name s.probed := by
  rcases Process_shape fl lower net url s with ⟨_, hp, _⟩ | ⟨sig', hmiss, _, hp, _⟩
  · rw [hp]
  · have hk : parentOf s.obj.random (normalize lower url) ≠ name := by
      intro he
      rw [he, h] at hmiss
      exact Option.noConfusion hmiss
    rw [hp, queriesFor_append_other _ _ _ hk]

theorem Process_step_miss (fl : Flags) (lower : Char → Char) (net : Resolver) (url : Str)
    (s : Sys) (name : Str) (h : mapGet s.obj.wildcards name = none) :
    (queriesFor name (Process fl lower net url s).probed = queriesFor name s.probed ∧
      mapGet (Process fl lower net url s).obj.wildcards name = none) ∨
    (queriesFor name (Process fl lower net url s).probed = queriesFor name s.probed + 1 ∧
      ∃ sig, mapGet (Process fl lower net url s).obj.wildcards name = some sig) := by
  rcases Process_shape fl lower net url s with ⟨_, hp, hw⟩ | ⟨sig', _, _, hp, hw⟩
  · refine Or.inl ⟨?_, ?_⟩
    · rw [hp]
    · rw [hw]; exact h
  · by_cases hk : parentOf s.obj.random (normalize lower url) = name
    · refine Or.inr ⟨?_, sig', ?_⟩
      · rw [hp, hk, queriesFor_append_self]
      · rw [hw, hk]; exact mapGet_mapSet_self _ _ _
    · refine Or.inl ⟨?_, ?_⟩
      · rw [hp, queriesFor_append_other _ _ _ hk]
      · rw [hw, mapGet_mapSet_ne _ _ _ _ hk]; exact h

theorem processAll_cons (fl : Flags) (lower : Char → Char) (net : Resolver) (url : Str)
    (urls : List Str) (s : Sys) :
    processAll fl lower net (url :: urls) s
      = processAll fl lower net urls (Process fl lower net url s) := rfl

theorem processAll_random (fl : Flags) (lower : Char → Char) (net : Resolver)
    (urls : List Str) (s : Sys) :
    (processAll fl lower net urls s).obj.random = s.obj.random := by
  induction urls generalizing s with
  | nil => rfl
  | cons u us ih => rw [processAll_cons, ih, Process_random]

theorem processAll_cache_keeps (fl : Flags) (lower : Char → Char) (net : Resolver)
    (urls : List Str) (s : Sys) (key : Str) (sig : List Str)
    (h : mapGet s.obj.wildcards key = some sig) :
    mapGet (processAll fl lower net urls s).obj.wildcards key = some sig := by
  induction urls generalizing s with
  | nil => exact h
  | cons u us ih =>
    rw [processAll_cons]
    exact ih _ (Process_cache_keeps fl lower net u s key sig h)

theorem processAll_cached_count (fl : Flags) (lower : Char → Char) (net : Resolver)
    (urls : List Str) (s : Sys) (name : Str) (sig : List Str)
    (h : mapGet s.obj.wildcards name = some sig) :
    queriesFor name (processAll fl lower net urls s).probed = queriesFor name s.probed := by
  induction urls generalizing s with
  | nil => rfl
  | cons u us ih =>
    rw [processAll_cons, ih _ (Process_cache_keeps fl lower net u s name sig h)]
    exact Process_step_cached fl lower net u s name sig h

theorem processAll_count_le (fl : Flags) (lower : Char → Char) (net : Resolver)
    (urls : List Str) (s : Sys) (name : Str) :
    queriesFor name (processAll fl lower net urls s).probed ≤ queriesFor name s.probed + 1 := by
  induction urls generalizing s with
  | nil => exact Nat.le_succ _
  | cons u us ih =>
    rw [processAll_cons]
    cases hc : mapGet s.obj.wildcards name with
    | some sig =>
      rw [processAll_cached_count fl lower net us _ name sig
          (Process_cache_keeps fl lower net u s name sig hc),
        Process_step_cached fl lower net u s name sig hc]
      exact Nat.le_succ _
    | none =>
      rcases Process_step_miss fl lower net u s name hc with ⟨hq, _⟩ | ⟨hq, sig, hsig⟩
      · rw [← hq]; exact ih _
      · rw [processAll_cached_count fl lower net us _ name sig hsig, hq]

theorem checkIsValidWildcard_probe_sent (fl : Flags) (net : Resolver) (url : Str) (s : Sys)
    (anss : List Str) (hans : (answers fl net url s).1 = Except.ok anss) (hne : anss ≠ [])
    (hlong : 3 ≤ (Split url '.').length)
    (hmiss : mapGet s.obj.wildcards (parentOf s.obj.random url) = none) :
    (checkIsValidWildcard fl net url s).2.sent
      = s.sent ++ [url ++ ".".toList, parentOf s.obj.random url ++ ".".toList] ∧
    (checkIsValidWildcard fl net url s).2.probed
      = s.probed ++ [parentOf s.obj.random url ++ ".".toList] := by
  have hmiss1 : mapGet (afterQuery url s).obj.wildcards (parentOf s.obj.random url) = none := hmiss
  rw [checkIsValidWildcard_long fl net url s anss hans hne hlong,
    lookupOrProbe_miss fl net _ _ hmiss1]
  simp only
  split <;> simp [Printf, afterQuery]

theorem Process_probed (fl : Flags) (lower : Char → Char) (net : Resolver) (url : Str) (s : Sys) :
    (Process fl lower net url s).probed = (isValid fl net (normalize lower url) s).2.probed := by
  rcases Process_eq fl lower net url s with he | he
  · rw [he]
  · rw [he]; rfl

theorem Process_probes (fl : Flags) (lower : Char → Char) (net : Resolver) (url : Str) (s : Sys)
    (anss : List Str) (hcw : fl.flagCheckWildcard = true)
    (hans : (answers fl net (normalize lower url) s).1 = Except.ok anss) (hne : anss ≠ [])
    (hlong : 3 ≤ (Split (normalize lower url) '.').length)
    (hmiss : mapGet s.obj.wildcards (parentOf s.obj.random (normalize lower url)) = none) :
    queriesFor (parentOf s.obj.random (normalize lower url)) (Process fl lower net url s).probed
      = queriesFor (parentOf s.obj.random (normalize lower url)) s.probed + 1 ∧
    ∃ sig, mapGet (Process fl lower net url s).obj.wildcards
      (parentOf s.obj.random (normalize lower url)) = some sig := by
  have hprobed : (Process fl lower net url s).probed
      = s.probed ++ [parentOf s.obj.random (normalize lower url) ++ ".".toList] := by
    rw [Process_probed]
    unfold isValid
    simp only [hcw, if_true]
    exact (checkIsValidWildcard_probe_sent fl net _ s anss hans hne hlong hmiss).2
  have hcount : queriesFor (parentOf s.obj.random (normalize lower url))
      (Process fl lower net url s).probed
      = queriesFor (parentOf s.obj.random (normalize lower url)) s.probed + 1 := by
    rw [hprobed, queriesFor_append_self]
  refine ⟨hcount, ?_⟩
  rcases Process_step_miss fl lower net url s _ hmiss with ⟨hq, _⟩ | ⟨_, hsig⟩
  · omega
  · exact hsig

theorem Process_probed_sublist (fl : Flags) (lower : Char → Char) (net : Resolver) (url : Str)
    (s : Sys) (h : s.probed.Sublist s.sent) :
    (Process fl lower net url s).probed.Sublist (Process fl lower net url s).sent := by
  rcases Process_shape fl lower net url s with ⟨hs, hp, _⟩ | ⟨sig, _, hs, hp, _⟩
  · rw [hs, hp]
    exact h.trans (List.sublist_append_left _ _)
  · rw [hs, hp]
    exact List.Sublist.append h (List.Sublist.cons _ (List.Sublist.refl _))

theorem processAll_probed_sublist (fl : Flags) (lower : Char → Char) (net : Resolver)
    (urls : List Str) (s : Sys) (h : s.probed.Sublist s.sent) :
    (processAll fl lower net urls s).probed.Sublist (processAll fl lower net urls s).sent := by
  induction urls generalizing s with
  | nil => exact h
  | cons u us ih =>
    rw [processAll_cons]
    exact ih _ (Process_probed_sublist fl lower net u s h)

theorem Process_unresolved_mode_prints_all (fl : Flags) (lower : Char → Char) (net : Resolver)
    (url : Str) (s : Sys) (hmode : s.obj.showUnresolved = true) :
    (Process fl lower net url s).stdout = s.stdout ++ [url] := by
  obtain ⟨hout, _, hshow⟩ := isValid_frame fl net (normalize lower url) s
  rw [hmode] at hshow
  unfold Process
  generalize isValid fl net (normalize lower url) s = r at hout hshow ⊢
  obtain ⟨b, s1⟩ := r
  simp only at hout hshow
  cases b <;> simp [hshow, Println, hout]

theorem checkIsValidWildcard_short_logged (fl : Flags) (net : Resolver) (url : Str) (s : Sys)
    (anss : List Str) (h : (answers fl net url s).1 = Except.ok anss) (hne : anss ≠ [])
    (hshort : (Split url '.').length < 3) :
    (checkIsValidWildcard fl net url s).2.logged = s.logged := by
  rw [checkIsValidWildcard_short fl net url s anss h hne hshort]
  rfl

theorem checkIsValidWildcard_long_logged (fl : Flags) (net : Resolver) (url : Str) (s : Sys)
    (anss : List Str) (h : (answers fl net url s).1 = Except.ok anss) (hne : anss ≠ [])
    (hlong : 3 ≤ (Split url '.').length) (hv : fl.flagVerbose = true) :
    (checkIsValidWildcard fl net url s).2.logged =
      if (checkIsValidWildcard fl net url s).1 then s.logged ++ [logLine url anss]
      else s.logged := by
  have hl := (lookupOrProbe_frame fl net (parentOf s.obj.random url) (afterQuery url s)).2.1
  rw [checkIsValidWildcard_long fl net url s anss h hne hlong, hv]
  simp only [Bool.and_true]
  split
  · simp only [Printf, hl]
    rfl
  · exact hl

/-! ## The claims -/

/-- C1. In "show only unresolved" mode `Process` also prints a line whose
domain is valid: on the end-to-end scenario both lines come out, where the
flag promises only `b.example.com`. -/
theorem unresolved_mode_prints_resolved :
    (Process (Flags.mk false false false) Char.toLower scenarioNet "a.example.com".toList
        (fresh true)).stdout = ["a.example.com".toList] ∧
    (isValid (Flags.mk false false false) scenarioNet
        (normalize Char.toLower "a.example.com".toList) (fresh true)).1 = true ∧
    (processAll (Flags.mk false false false) Char.toLower scenarioNet
        ["a.example.com".toList, "b.example.com".toList] (fresh true)).stdout
      = ["a.example.com".toList, "b.example.com".toList] := by
  decide

/-- C2. With "show only unresolved" off, `Process` prints exactly one line, the
input line as it was given, when `isValid` of the normalized domain is true,
and prints nothing when it is false. -/
theorem Process_default_mode (fl : Flags) (lower : Char → Char) (net : Resolver) (url : Str)
    (s : Sys) (hmode : s.obj.showUnresolved = false) :
    ((isValid fl net (normalize lower url) s).1 = true →
      (Process fl lower net url s).stdout = s.stdout ++ [url]) ∧
    ((isValid fl net (normalize lower url) s).1 = false →
      (Process fl lower net url s).stdout = s.stdout) := by
  obtain ⟨hout, _, hshow⟩ := isValid_frame fl net (normalize lower url) s
  rw [hmode] at hshow
  unfold Process
  generalize isValid fl net (normalize lower url) s = r at hout hshow ⊢
  obtain ⟨b, s1⟩ := r
  simp only at hout hshow
  constructor
  · intro hb
    simp only at hb
    simp [hb, hshow, Println, hout]
  · intro hb
    simp only at hb
    simp [hb, hshow, hout]

/-- Instance of C2: the line `HTTP://A.example.com` resolves and is printed as
it was given; the line `b.example.com` does not and nothing is printed. -/
theorem Process_default_mode_witness :
    (fresh false).obj.showUnresolved = false ∧
    (isValid (Flags.mk false false false) scenarioNet
        (normalize Char.toLower "HTTP://A.example.com".toList) (fresh false)).1 = true ∧
    (Process (Flags.mk false false false) Char.toLower scenarioNet
        "HTTP://A.example.com".toList (fresh false)).stdout
      = (fresh false).stdout ++ ["HTTP://A.example.com".toList] ∧
    (Process (Flags.mk false false false) Char.toLower scenarioNet
        "b.example.com".toList (fresh false)).stdout = (fresh false).stdout :=
  ⟨rfl, by decide,
    (Process_default_mode (Flags.mk false false false) Char.toLower scenarioNet
      "HTTP://A.example.com".toList (fresh false) rfl).1 (by decide),
    (Process_default_mode (Flags.mk false false false) Char.toLower scenarioNet
      "b.example.com".toList (fresh false) rfl).2 (by decide)⟩

/-- C3. Subset law: for a candidate with at least 3 labels and a nonempty answer
list `anss`, and for the signature `sig` of its zone, be it the cached one or,
on a miss, the one just probed, `checkIsValidWildcard` returns false (masked)
exactly when every element of `anss` occurs in `sig`, and true otherwise; the
cache then holds `sig` for the zone. -/
theorem subset_law (fl : Flags) (net : Resolver) (url : Str) (s : Sys)
    (anss sig : List Str)
    (hans : (answers fl net url s).1 = Except.ok anss) (hne : anss ≠ [])
    (hlong : 3 ≤ (Split url '.').length)
    (hsig : mapGet s.obj.wildcards (parentOf s.obj.random url) = some sig ∨
      (mapGet s.obj.wildcards (parentOf s.obj.random url) = none ∧
        sig = (parentAnswers fl net (parentOf s.obj.random url) (afterQuery url s)).1)) :
    ((checkIsValidWildcard fl net url s).1 = false ↔ ∀ a ∈ anss, a ∈ sig) ∧
    ((checkIsValidWildcard fl net url s).1 = true ↔ ∃ a ∈ anss, a ∉ sig) ∧
    mapGet (checkIsValidWildcard fl net url s).2.obj.wildcards (parentOf s.obj.random url)
      = some sig := by
  have hlp : (lookupOrProbe fl net (parentOf s.obj.random url) (afterQuery url s)).1 = sig ∧
      mapGet (lookupOrProbe fl net (parentOf s.obj.random url) (afterQuery url s)).2.obj.wildcards
        (parentOf s.obj.random url) = some sig := by
    rcases hsig with hhit | ⟨hmiss, hfresh⟩
    · have hhit1 : mapGet (afterQuery url s).obj.wildcards (parentOf s.obj.random url)
          = some sig := hhit
      rw [lookupOrProbe_hit fl net _ _ sig hhit1]
      exact ⟨rfl, hhit1⟩
    · have hmiss1 : mapGet (afterQuery url s).obj.wildcards (parentOf s.obj.random url)
          = none := hmiss
      rw [lookupOrProbe_miss fl net _ _ hmiss1, ← hfresh]
      exact ⟨rfl, mapGet_mapSet_self _ _ _⟩
  rw [checkIsValidWildcard_long fl net url s anss hans hne hlong, hlp.1]
  refine ⟨?_, ?_, ?_⟩
  · simp only [Bool.not_eq_false']
    exact isIncludeSlices_iff anss sig
  · simp only [Bool.not_eq_true']
    rw [← Bool.not_eq_true, isIncludeSlices_iff]
    push_neg
    rfl
  · simp only
    split
    · exact hlp.2
    · exact hlp.2

/-- Instance of C3 with the cached signature [1.2.3.4]: the answers [1.2.3.4]
are masked, the answers [1.2.3.4, 5.6.7.8] are not. -/
theorem subset_law_witness :
    (checkIsValidWildcard (Flags.mk false true false) oneAddrNet "a.example.com".toList
        cachedSys).1 = false ∧
    (checkIsValidWildcard (Flags.mk false true false) twoAddrNet "a.example.com".toList
        cachedSys).1 = true :=
  ⟨(subset_law (Flags.mk false true false) oneAddrNet "a.example.com".toList cachedSys
      ["1.2.3.4".toList] ["1.2.3.4".toList] rfl (by decide) (by decide)
      (Or.inl (by decide))).1.2 (by decide),
   (subset_law (Flags.mk false true false) twoAddrNet "a.example.com".toList cachedSys
      ["1.2.3.4".toList, "5.6.7.8".toList] ["1.2.3.4".toList] rfl (by decide) (by decide)
      (Or.inl (by decide))).2.1.2 ⟨"5.6.7.8".toList, by decide, by decide⟩⟩

/-- C4. Canonical-name short-circuit: under the skip-canonical-name policy, when
the exchange succeeds and the answer section holds a canonical-name record at
any position (`before` and `after` being whatever records surround it),
`answers` returns the empty list and no error. -/
theorem answers_cname_short_circuit (fl : Flags) (net : Resolver) (url : Str) (s : Sys)
    (before after : List RR) (target : Str)
    (hskip : fl.flagSkipCname = true)
    (hok : net s.sent.length (url ++ ".".toList) = Except.ok (before ++ RR.CNAME target :: after)) :
    (answers fl net url s).1 = Except.ok [] := by
  rw [answers_fst, hok, hskip]
  simp only
  rw [collect_cname_skip _ _ ⟨target, by simp⟩]

/-- Instance of C4: an address record followed by a canonical-name record. -/
theorem answers_cname_short_circuit_witness :
    (answers (Flags.mk true false false) cnameNet "a.example.com".toList (fresh false)).1
      = Except.ok [] :=
  answers_cname_short_circuit (Flags.mk true false false) cnameNet "a.example.com".toList
    (fresh false) [RR.A "1.1.1.1".toList] [] "edge.example.net.".toList rfl rfl

/-- C5. Per-zone computation happens at most once per run.  A probe is an
exchange made by `parentAnswers`; `probed` lists the probes among the
exchanges of `sent`.  In a run that processes the lines `urls` one after
another from any state `s`, for every flag setting, every resolver and every
zone:
* an entry of the wildcards cache is never replaced or removed;
* the run probes the zone at most once, and not at all when the zone is
  cached at its start; so from a state where nothing was probed yet, as at
  the start of a run, the zone is probed at most once;
* with wildcard checking enabled and the zone not yet cached, N ≥ 1
  candidates of that zone, each with at least 3 labels and a nonempty answer
  set when it is looked up, trigger exactly one probe;
* the probes stay among the exchanges sent upstream. -/
theorem probe_once_per_zone (fl : Flags) (lower : Char → Char) (net : Resolver)
    (urls : List Str) (s : Sys) (zone : Str) :
    (∀ key sig, mapGet s.obj.wildcards key = some sig →
      mapGet (processAll fl lower net urls s).obj.wildcards key = some sig) ∧
    queriesFor (probeName s.obj.random zone) (processAll fl lower net urls s).probed
      ≤ queriesFor (probeName s.obj.random zone) s.probed + 1 ∧
    ((∃ sig, mapGet s.obj.wildcards (probeName s.obj.random zone) = some sig) →
      queriesFor (probeName s.obj.random zone) (processAll fl lower net urls s).probed
        = queriesFor (probeName s.obj.random zone) s.probed) ∧
    (s.probed = [] →
      queriesFor (probeName s.obj.random zone) (processAll fl lower net urls s).probed ≤ 1) ∧
    (fl.flagCheckWildcard = true →
      mapGet s.obj.wildcards (probeName s.obj.random zone) = none →
      urls ≠ [] →
      (∀ pre u post, urls = pre ++ u :: post →
        zoneOf (normalize lower u) = zone ∧
        3 ≤ (Split (normalize lower u) '.').length ∧
        ∃ anss, (answers fl net (normalize lower u) (processAll fl lower net pre s)).1
          = Except.ok anss ∧ anss ≠ []) →
      queriesFor (probeName s.obj.random zone) (processAll fl lower net urls s).probed
        = queriesFor (probeName s.obj.random zone) s.probed + 1) ∧
    (s.probed.Sublist s.sent →
      (processAll fl lower net urls s).probed.Sublist (processAll fl lower net urls s).sent) := by
  refine ⟨fun key sig h => processAll_cache_keeps fl lower net urls s key sig h,
    processAll_count_le fl lower net urls s _, ?_, ?_, ?_,
    processAll_probed_sublist fl lower net urls s⟩
  · rintro ⟨sig, hsig⟩
    exact processAll_cached_count fl lower net urls s _ sig hsig
  · intro hnone
    have hle := processAll_count_le fl lower net urls s (probeName s.obj.random zone)
    rw [hnone] at hle
    exact hle
  · intro hcw hmiss hnonempty hall
    cases urls with
    | nil => exact absurd rfl hnonempty
    | cons u us =>
      obtain ⟨hzone, hlong, anss, hok, hnn⟩ := hall [] u us rfl
      have hparent : parentOf s.obj.random (normalize lower u) = probeName s.obj.random zone := by
        unfold parentOf
        rw [hzone]
      have hstep := Process_probes fl lower net u s anss hcw hok hnn hlong
        (by rw [hparent]; exact hmiss)
      rw [hparent] at hstep
      obtain ⟨hcount, sig, hsig⟩ := hstep
      rw [processAll_cons, processAll_cached_count fl lower net us _ _ sig hsig, hcount]

/-- Instance of C5: two candidates of the zone `example.com`, the first of them
being the probe name itself, and one probe. -/
theorem probe_once_per_zone_witness :
    mapGet (fresh false).obj.wildcards
      (probeName (fresh false).obj.random "example.com".toList) = none ∧
    queriesFor (probeName (fresh false).obj.random "example.com".toList)
        (processAll (Flags.mk false true false) Char.toLower mirrorNet
          ["k3x9q0zt7m.example.com".toList, "a.example.com".toList] (fresh false)).probed
      = queriesFor (probeName (fresh false).obj.random "example.com".toList)
          (fresh false).probed + 1 :=
  ⟨by decide,
   (probe_once_per_zone (Flags.mk false true false) Char.toLower mirrorNet
      ["k3x9q0zt7m.example.com".toList, "a.example.com".toList] (fresh false)
      "example.com".toList).2.2.2.2.1 rfl (by decide) (by decide)
      (by
        intro pre u post h
        have hu : u ∈ pre ++ u :: post := by simp
        rw [← h] at hu
        have hu2 : u = "k3x9q0zt7m.example.com".toList ∨ u = "a.example.com".toList := by
          simpa using hu
        rcases hu2 with rfl | rfl
        · exact ⟨by decide, by decide, ["6.6.6.6".toList], rfl, by decide⟩
        · exact ⟨by decide, by decide, ["6.6.6.6".toList], rfl, by decide⟩)⟩

/-- C6. Short-label policy: a candidate with fewer than 3 dot-separated labels
and a nonempty answer set is reported valid by `checkIsValidWildcard`, for
every resolver; the only exchange made is the one for the candidate itself
(no probe) and the probe object, its cache included, is unchanged. -/
theorem short_label_never_masked (fl : Flags) (net : Resolver) (url : Str) (s : Sys)
    (anss : List Str) (hans : (answers fl net url s).1 = Except.ok anss) (hne : anss ≠ [])
    (hshort : (Split url '.').length < 3) :
    (checkIsValidWildcard fl net url s).1 = true ∧
    (checkIsValidWildcard fl net url s).2.sent = s.sent ++ [url ++ ".".toList] ∧
    (checkIsValidWildcard fl net url s).2.obj = s.obj := by
  rw [checkIsValidWildcard_short fl net url s anss hans hne hshort]
  simp [afterQuery]

/-- Instance of C6: `example.com` against an upstream that answers everything. -/
theorem short_label_never_masked_witness :
    (Split "example.com".toList '.').length < 3 ∧
    (checkIsValidWildcard (Flags.mk false true false) mirrorNet "example.com".toList
        (fresh false)).1 = true ∧
    (checkIsValidWildcard (Flags.mk false true false) mirrorNet "example.com".toList
        (fresh false)).2.sent = (fresh false).sent ++ ["example.com".toList ++ ".".toList] ∧
    (checkIsValidWildcard (Flags.mk false true false) mirrorNet "example.com".toList
        (fresh false)).2.obj = (fresh false).obj :=
  ⟨by decide,
   short_label_never_masked (Flags.mk false true false) mirrorNet "example.com".toList
     (fresh false) ["6.6.6.6".toList] rfl (by decide) (by decide)⟩

/-- C7. A candidate whose query fails, or succeeds with an empty answer set,
is not valid, whatever the flags (wildcard checking on or off); both cases
end in the same state: one exchange was made, the one for the candidate
(so no probe), and the probe object, its cache included, is unchanged. -/
theorem isValid_unresolved (fl : Flags) (net : Resolver) (url : Str) (s : Sys)
    (hq : (∃ err, (answers fl net url s).1 = Except.error err) ∨
      (answers fl net url s).1 = Except.ok []) :
    (isValid fl net url s).1 = false ∧
    (isValid fl net url s).2.sent = s.sent ++ [url ++ ".".toList] ∧
    (isValid fl net url s).2.obj = s.obj ∧
    (isValid fl net url s).2.logged = s.logged := by
  have key : isValid fl net url s = (false, afterQuery url s) := by
    unfold isValid
    by_cases hcw : fl.flagCheckWildcard = true
    · simp only [hcw, if_true]
      rcases hq with ⟨err, h⟩ | h
      · exact checkIsValidWildcard_error fl net url s err h
      · exact checkIsValidWildcard_empty fl net url s h
    · simp only [hcw]
      rw [answers_eq]
      rcases hq with ⟨err, h⟩ | h
      · rw [h]; rfl
      · rw [h]; rfl
  rw [key]
  simp [afterQuery]

/-- Instance of C7: an empty answer set with wildcard checking on, and a failed
query with wildcard checking off. -/
theorem isValid_unresolved_witness :
    (isValid (Flags.mk false true false) scenarioNet "b.example.com".toList (fresh false)).1
      = false ∧
    (isValid (Flags.mk false false false) scenarioNet "c.example.com".toList (fresh false)).1
      = false :=
  ⟨(isValid_unresolved (Flags.mk false true false) scenarioNet "b.example.com".toList
      (fresh false) (Or.inr rfl)).1,
   (isValid_unresolved (Flags.mk false false false) scenarioNet "c.example.com".toList
      (fresh false) (Or.inl ⟨"i/o timeout".toList, rfl⟩)).1⟩

/-- C8. Probe failure collapses to "zone has no wildcard": for a candidate with at
least 3 labels and a nonempty answer set whose zone is not in the cache, when
the exchange for the probe name fails, the empty list is stored as the
signature of the zone and `checkIsValidWildcard` returns true. -/
theorem probe_failure_not_masked (fl : Flags) (net : Resolver) (url : Str) (s : Sys)
    (anss : List Str) (err : QueryError)
    (hans : (answers fl net url s).1 = Except.ok anss) (hne : anss ≠ [])
    (hlong : 3 ≤ (Split url '.').length)
    (hmiss : mapGet s.obj.wildcards (parentOf s.obj.random url) = none)
    (hfail : net (s.sent.length + 1) (parentOf s.obj.random url ++ ".".toList) = Except.error err) :
    (checkIsValidWildcard fl net url s).1 = true ∧
    mapGet (checkIsValidWildcard fl net url s).2.obj.wildcards (parentOf s.obj.random url)
      = some [] ∧
    (checkIsValidWildcard fl net url s).2.sent
      = s.sent ++ [url ++ ".".toList, parentOf s.obj.random url ++ ".".toList] := by
  have hpa : (parentAnswers fl net (parentOf s.obj.random url) (afterQuery url s)).1 = [] := by
    rw [parentAnswers_fst, answers_fst]
    have hl : (afterQuery url s).sent.length = s.sent.length + 1 := by simp [afterQuery]
    rw [hl, hfail]
  have hmiss1 : mapGet (afterQuery url s).obj.wildcards (parentOf s.obj.random url) = none := hmiss
  rw [checkIsValidWildcard_long fl net url s anss hans hne hlong,
    lookupOrProbe_miss fl net _ _ hmiss1, hpa]
  cases anss with
  | nil => exact absurd rfl hne
  | cons a rest =>
    have hv : isIncludeSlices (a :: rest) [] = false := by simp [isIncludeSlices, isInclude]
    simp only [hv, Bool.not_false, Bool.true_and]
    refine ⟨trivial, ?_, ?_⟩
    · split
      · exact mapGet_mapSet_self _ _ _
      · exact mapGet_mapSet_self _ _ _
    · split <;> simp [Printf, afterQuery]

/-- Instance of C8: the candidate resolves, the probe of its zone times out. -/
theorem probe_failure_not_masked_witness :
    mapGet (fresh false).obj.wildcards
      (parentOf (fresh false).obj.random "a.example.com".toList) = none ∧
    (checkIsValidWildcard (Flags.mk false true false) firstOnlyNet "a.example.com".toList
        (fresh false)).1 = true ∧
    mapGet (checkIsValidWildcard (Flags.mk false true false) firstOnlyNet
        "a.example.com".toList (fresh false)).2.obj.wildcards
      (parentOf (fresh false).obj.random "a.example.com".toList) = some [] ∧
    (checkIsValidWildcard (Flags.mk false true false) firstOnlyNet "a.example.com".toList
        (fresh false)).2.sent
      = (fresh false).sent ++ ["a.example.com".toList ++ ".".toList,
          parentOf (fresh false).obj.random "a.example.com".toList ++ ".".toList] :=
  ⟨by decide,
   probe_failure_not_masked (Flags.mk false true false) firstOnlyNet "a.example.com".toList
     (fresh false) ["1.1.1.1".toList] "i/o timeout".toList rfl (by decide) (by decide)
     (by decide) rfl⟩

/-- C9 as stated fails on a doubled scheme prefix: each prefix is stripped at
most once, so the candidate for `http://http://example.com` still begins with
"http://". -/
theorem doubled_scheme_survives :
    ¬ (HasPrefix (normalize Char.toLower "http://http://example.com".toList) "http://".toList
          = false ∧
       HasPrefix (normalize Char.toLower "http://http://example.com".toList) "https://".toList
          = false) := by
  decide

/-- C9, amended. The candidate `Process` hands to `isValid` is the lowercased
input with a leading "http://" removed, if there is one, and then a leading
"https://" removed, if there is one.  When the lowercased input does not begin
with two scheme prefixes in a row, the candidate begins with neither
"http://" nor "https://". -/
theorem normalize_no_scheme (lower : Char → Char) (url : Str)
    (hone : ∀ p ∈ schemePrefixes, ∀ q ∈ schemePrefixes,
      HasPrefix (ToLower lower url) (p ++ q) = false) :
    normalize lower url =
      TrimPrefix (TrimPrefix (ToLower lower url) "http://".toList) "https://".toList ∧
    HasPrefix (normalize lower url) "http://".toList = false ∧
    HasPrefix (normalize lower url) "https://".toList = false := by
  refine ⟨rfl, ?_⟩
  rw [normalize_eq]
  generalize ToLower lower url = d at hone
  have h11 := hone "http://".toList (by simp [schemePrefixes]) "http://".toList
    (by simp [schemePrefixes])
  have h12 := hone "http://".toList (by simp [schemePrefixes]) "https://".toList
    (by simp [schemePrefixes])
  have h21 := hone "https://".toList (by simp [schemePrefixes]) "http://".toList
    (by simp [schemePrefixes])
  have h22 := hone "https://".toList (by simp [schemePrefixes]) "https://".toList
    (by simp [schemePrefixes])
  by_cases ha : HasPrefix d "http://".toList = true
  · have hd1 : TrimPrefix d "http://".toList = d.drop "http://".toList.length := by
      simp only [TrimPrefix, ha, if_true]
    have hb : ¬ HasPrefix (d.drop "http://".toList.length) "https://".toList = true := by
      intro hb
      rw [HasPrefix_append d _ _ ha hb] at h12
      exact Bool.noConfusion h12
    have hc : ¬ HasPrefix (d.drop "http://".toList.length) "http://".toList = true := by
      intro hc
      rw [HasPrefix_append d _ _ ha hc] at h11
      exact Bool.noConfusion h11
    rw [hd1]
    simp only [TrimPrefix, hb, if_false]
    exact ⟨HasPrefix_false_of_bool _ _ hc, HasPrefix_false_of_bool _ _ hb⟩
  · have hd1 : TrimPrefix d "http://".toList = d := by
      unfold TrimPrefix
      rw [if_neg ha]
    rw [hd1]
    by_cases hb : HasPrefix d "https://".toList = true
    · have hd2 : TrimPrefix d "https://".toList = d.drop "https://".toList.length := by
        simp only [TrimPrefix, hb, if_true]
      rw [hd2]
      constructor
      · apply HasPrefix_false_of_bool
        intro hc
        rw [HasPrefix_append d _ _ hb hc] at h21
        exact Bool.noConfusion h21
      · apply HasPrefix_false_of_bool
        intro hc
        rw [HasPrefix_append d _ _ hb hc] at h22
        exact Bool.noConfusion h22
    · have hd2 : TrimPrefix d "https://".toList = d := by
        unfold TrimPrefix
        rw [if_neg hb]
      rw [hd2]
      exact ⟨HasPrefix_false_of_bool _ _ ha, HasPrefix_false_of_bool _ _ hb⟩

/-- Instance of C9: `HTTPS://Example.com` becomes `example.com`. -/
theorem normalize_no_scheme_witness :
    (∀ p ∈ schemePrefixes, ∀ q ∈ schemePrefixes,
      HasPrefix (ToLower Char.toLower "HTTPS://Example.com".toList) (p ++ q) = false) ∧
    normalize Char.toLower "HTTPS://Example.com".toList = "example.com".toList ∧
    HasPrefix (normalize Char.toLower "HTTPS://Example.com".toList) "http://".toList = false ∧
    HasPrefix (normalize Char.toLower "HTTPS://Example.com".toList) "https://".toList = false :=
  ⟨by decide, by decide,
   (normalize_no_scheme Char.toLower "HTTPS://Example.com".toList (by decide)).2⟩

/-- C10. With wildcard checking and verbose both on, a candidate with fewer
than 3 labels and a nonempty answer set is reported valid and nothing is
logged, while without wildcard checking the same candidate is logged. -/
theorem short_label_not_logged :
    (checkIsValidWildcard (Flags.mk false true true) mirrorNet "example.com".toList
        (fresh false)).1 = true ∧
    (checkIsValidWildcard (Flags.mk false true true) mirrorNet "example.com".toList
        (fresh false)).2.logged = [] ∧
    (isValid (Flags.mk false false true) mirrorNet "example.com".toList (fresh false)).2.logged
      = ["example.com: [6.6.6.6]".toList] ∧
    (checkIsValidWildcard (Flags.mk false true true) mirrorNet "a.example.com".toList
        cachedSys).2.logged = ["a.example.com: [6.6.6.6]".toList] := by
  decide

end Dnsprobe
